import Mathlib

/-!
Shallow embedding of the room-messaging subsystem of the peerchat
repository (`src/chat.go` and the UI command handler), together with
theorems settling the frozen claims about it.

Conventions of the embedding:
* byte sequences are `List Nat`;
* Go `int` fields carried on the wire (`ChunkIndex`, `TotalChunks`) are
  `Int` (the values involved are far below 2^63, so 64-bit overflow is
  immaterial and is not modelled);
* a Go `nil` byte slice is `Option.none` (the assembler's completion scan
  distinguishes `nil` slots from filled ones, so the distinction matters);
* effectful calls (channel sends, `topic.Publish`, file writes) are
  recorded as explicit effect values; external failure points
  (`os.Open`, `file.Read`, `topic.Publish`, `json.Unmarshal`,
  `sub.Next`) are supplied as oracle inputs;
* a Go runtime panic (slice index out of range, `make` with negative
  length) is an explicit `panicked` outcome.
-/

/-- Byte sequences (`[]byte` in Go). -/
abbrev Bytes := List Nat

/-- Wire message of the chat protocol; models `chatMsg` in `chat.go`
(lines 41-50).  `ChunkData = none` models a `nil` slice (the JSON codec
omits the field). -/
structure chatMsg where
  Text        : String
  SenderID    : String
  SenderName  : String
  MsgType     : String
  FileName    : String
  ChunkIndex  : Int
  TotalChunks : Int
  ChunkData   : Option Bytes
deriving DecidableEq, Repr

/-- Internal log event; models `logEntry` in `chat.go` (lines 53-56).
The Go field `Prefix` is renamed `Pfx` here. -/
structure logEntry where
  Pfx : String
  Msg : String
deriving DecidableEq, Repr

/-- Chunk size used by `SendFile` (`const chunkSize = 4096`). -/
def chunkSize : Nat := 4096

/-- File size ceiling used by `SendFile` (`const maxFileSize = 100 * 1024`). -/
def maxFileSize : Nat := 100 * 1024

/-- The chunk-count formula of `SendFile` (line 130):
`totalChunks = int(fileInfo.Size()/chunkSize) + 1`. -/
def totalChunksOf (size : Nat) : Int := (size / chunkSize : Nat) + 1

/-- Fuel-driven worker for `splitChunks`.  The fuel only makes the
recursion structural; it never runs out when it starts at the content
length (each step drops `chunkSize ≥ 1` bytes and one unit of fuel). -/
def splitChunksF : Nat → Bytes → List Bytes
  | _, [] => []
  | 0, _ => []
  | fuel + 1, content =>
      content.take chunkSize :: splitChunksF fuel (content.drop chunkSize)

/-- The sequence of reads performed by `SendFile`'s loop on a file with
the given content: successive slices of at most `chunkSize` bytes,
ending when a read returns 0 bytes. -/
def splitChunks (content : Bytes) : List Bytes :=
  splitChunksF content.length content

theorem splitChunksF_nil (fuel : Nat) : splitChunksF fuel [] = [] := by
  cases fuel <;> rfl

/-- The worker does not depend on the fuel once it covers the length. -/
theorem splitChunksF_congr :
    ∀ (fuel₁ fuel₂ : Nat) (content : Bytes), content.length ≤ fuel₁ →
      content.length ≤ fuel₂ → splitChunksF fuel₁ content = splitChunksF fuel₂ content := by
  intro fuel₁
  induction fuel₁ with
  | zero =>
      intro fuel₂ content h1 _
      have : content = [] := by
        cases content with
        | nil => rfl
        | cons b r => simp at h1
      subst this
      rw [splitChunksF_nil, splitChunksF_nil]
  | succ f ih =>
      intro fuel₂ content h1 h2
      cases content with
      | nil => rw [splitChunksF_nil, splitChunksF_nil]
      | cons b r =>
          cases fuel₂ with
          | zero => simp at h2
          | succ g =>
              show _ :: splitChunksF f _ = _ :: splitChunksF g _
              have hdrop : ((b :: r).drop chunkSize).length ≤ f := by
                simp only [List.length_drop, List.length_cons, chunkSize] at h1 ⊢
                omega
              have hdrop2 : ((b :: r).drop chunkSize).length ≤ g := by
                simp only [List.length_drop, List.length_cons, chunkSize] at h2 ⊢
                omega
              rw [ih _ _ hdrop hdrop2]

theorem splitChunks_nil : splitChunks [] = [] := rfl

theorem splitChunks_cons (content : Bytes) (h : content ≠ []) :
    splitChunks content =
      content.take chunkSize :: splitChunks (content.drop chunkSize) := by
  cases content with
  | nil => exact absurd rfl h
  | cons b r =>
      show splitChunksF (r.length + 1) (b :: r) = _
      show _ :: splitChunksF r.length _ = _
      rw [splitChunks, splitChunksF_congr r.length ((b :: r).drop chunkSize).length _
            (by simp only [List.length_drop, List.length_cons, chunkSize]; omega)
            (le_refl _)]

/-- Reassembling the chunks in order gives back the file. -/
theorem join_splitChunks (content : Bytes) :
    (splitChunks content).flatten = content := by
  suffices h : ∀ (fuel : Nat) (c : Bytes), c.length ≤ fuel →
      (splitChunksF fuel c).flatten = c from h content.length content (le_refl _)
  intro fuel
  induction fuel with
  | zero =>
      intro c hc
      cases c with
      | nil => rfl
      | cons b r => simp at hc
  | succ f ih =>
      intro c hc
      cases c with
      | nil => rfl
      | cons b r =>
          show ((b :: r).take chunkSize :: splitChunksF f ((b :: r).drop chunkSize)).flatten = _
          rw [List.flatten_cons, ih _ (by
            simp only [List.length_drop, List.length_cons, chunkSize] at hc ⊢
            omega)]
          exact List.take_append_drop _ _

/-- When the size is not an exact multiple of the chunk size, the number
of chunks actually read is `size/chunkSize + 1`, which is the value of
the `totalChunks` formula of `SendFile`. -/
theorem length_splitChunks_not_exact (content : Bytes)
    (h : content.length % chunkSize ≠ 0) :
    (splitChunks content).length = content.length / chunkSize + 1 := by
  suffices hgen : ∀ (fuel : Nat) (c : Bytes), c.length ≤ fuel →
      c.length % chunkSize ≠ 0 →
      (splitChunksF fuel c).length = c.length / chunkSize + 1 from
    hgen content.length content (le_refl _) h
  intro fuel
  induction fuel with
  | zero =>
      intro c hc hm
      cases c with
      | nil => simp [chunkSize] at hm
      | cons b r => simp at hc
  | succ f ih =>
      intro c hc hm
      cases c with
      | nil => simp [chunkSize] at hm
      | cons b r =>
          show ((b :: r).take chunkSize :: splitChunksF f ((b :: r).drop chunkSize)).length = _
          simp only [List.length_cons]
          by_cases hlen : (b :: r).length < chunkSize
          · have hdrop : (b :: r).drop chunkSize = [] := by
              apply List.eq_nil_of_length_eq_zero
              simp only [List.length_drop, List.length_cons, chunkSize] at hlen ⊢
              omega
            rw [hdrop, splitChunksF_nil]
            simp only [List.length_nil, List.length_cons, chunkSize] at hlen ⊢
            omega
          · have hfuel : ((b :: r).drop chunkSize).length ≤ f := by
              simp only [List.length_drop, List.length_cons, chunkSize] at hc ⊢
              omega
            have hmod : ((b :: r).drop chunkSize).length % chunkSize ≠ 0 := by
              simp only [List.length_drop, List.length_cons, chunkSize] at hm hlen ⊢
              omega
            have h2 := ih _ hfuel hmod
            rw [h2]
            simp only [List.length_drop, List.length_cons, chunkSize] at hm hlen ⊢
            omega

/-- When the size is a positive exact multiple of the chunk size, the
number of chunks actually read is `size/chunkSize`, one less than the
`totalChunks` formula of `SendFile`. -/
theorem length_splitChunks_exact (content : Bytes)
    (h : content.length % chunkSize = 0) :
    (splitChunks content).length = content.length / chunkSize := by
  suffices hgen : ∀ (fuel : Nat) (c : Bytes), c.length ≤ fuel →
      c.length % chunkSize = 0 →
      (splitChunksF fuel c).length = c.length / chunkSize from
    hgen content.length content (le_refl _) h
  intro fuel
  induction fuel with
  | zero =>
      intro c hc hm
      cases c with
      | nil => rw [splitChunksF_nil]; simp
      | cons b r => simp at hc
  | succ f ih =>
      intro c hc hm
      cases c with
      | nil => rw [splitChunksF_nil]; simp
      | cons b r =>
          show ((b :: r).take chunkSize :: splitChunksF f ((b :: r).drop chunkSize)).length = _
          simp only [List.length_cons]
          have hfuel : ((b :: r).drop chunkSize).length ≤ f := by
            simp only [List.length_drop, List.length_cons, chunkSize] at hc ⊢
            omega
          have hmod : ((b :: r).drop chunkSize).length % chunkSize = 0 := by
            simp only [List.length_drop, List.length_cons, chunkSize] at hm ⊢
            omega
          have h2 := ih _ hfuel hmod
          rw [h2]
          simp only [List.length_drop, List.length_cons, chunkSize] at hm ⊢
          omega

/-- The in-memory file-transfer state of `listenForMessages`:
`fileChunks := make(map[string][][]byte)` keyed by `FileName + SenderID`.
A slot holding `none` models a `nil` sub-slice (chunk not yet received). -/
abbrev FileChunks := String → Option (List (Option Bytes))

/-- The empty `fileChunks` map. -/
def emptyFileChunks : FileChunks := fun _ => none

/-- Go map store `fileChunks[key] = v`. -/
def mapInsert (st : FileChunks) (key : String) (v : List (Option Bytes)) :
    FileChunks :=
  fun k => if k = key then some v else st k

/-- Go `delete(fileChunks, key)`. -/
def mapErase (st : FileChunks) (key : String) : FileChunks :=
  fun k => if k = key then none else st k

/-- Observable effects of one iteration of the inbound loop. -/
inductive InEffect where
    /-- a log entry sent on `LogChannel` -/
  | log (e : logEntry)
    /-- `close(c.IncomingMessages)` -/
  | closedIncoming
    /-- a message delivered on `c.IncomingMessages` -/
  | deliverIncoming (m : chatMsg)
    /-- `assembleAndSaveFile(fileName, chunks)`: the completed file
        written to disk (its content is the in-order concatenation of
        the slots, which is what the chunk-by-chunk writes produce) -/
  | savedFile (fileName : String) (content : Bytes)
deriving DecidableEq, Repr

/-- How one iteration of the inbound loop ends. -/
inductive StepOutcome where
    /-- the loop proceeds to the next iteration -/
  | next
    /-- the loop returned (subscription closed or context cancelled) -/
  | stopped
    /-- a Go runtime panic (unrecovered: kills the process) -/
  | panicked (reason : String)
deriving DecidableEq, Repr

/-- Result of one or more iterations of the inbound loop. -/
structure ListenResult where
  state   : FileChunks
  effects : List InEffect
  outcome : StepOutcome

/-- Content of the file written by `assembleAndSaveFile`: the chunks are
written to the file one after the other (a `nil` chunk writes nothing,
though completion guarantees none is `nil`). -/
def joinChunks (slots : List (Option Bytes)) : Bytes :=
  slots.foldl (fun acc c => acc ++ c.getD []) []

/-- The file-chunk branch of `listenForMessages` (lines 191-213) once the
slot slice for the key is at hand.  Models the unchecked Go indexing
`fileChunks[key][parsedMsg.ChunkIndex] = parsedMsg.ChunkData`: an index
outside `[0, len)` is a runtime panic. -/
def ingestInto (st : FileChunks) (key : String) (slots : List (Option Bytes))
    (m : chatMsg) : ListenResult :=
  if 0 ≤ m.ChunkIndex ∧ m.ChunkIndex < (slots.length : Int) then
    let slots := slots.set m.ChunkIndex.toNat m.ChunkData
    if slots.all (fun c => c.isSome) then
      ⟨mapErase st key, [.savedFile m.FileName (joinChunks slots)], .next⟩
    else
      ⟨mapInsert st key slots, [], .next⟩
  else
    ⟨st, [], .panicked "index out of range"⟩

/-- Handling of one decoded `"file"` message by `listenForMessages`:
look up or create (`make([][]byte, parsedMsg.TotalChunks)`) the slot
slice for `FileName + SenderID`, store the chunk, scan for completion,
and on completion save the file and delete the key.  `make` with a
negative length is a runtime panic. -/
def ingestChunk (st : FileChunks) (m : chatMsg) : ListenResult :=
  let key := m.FileName ++ m.SenderID
  match st key with
  | some slots => ingestInto st key slots m
  | none =>
      if m.TotalChunks < 0 then
        ⟨st, [], .panicked "makeslice: len out of range"⟩
      else
        ingestInto st key (List.replicate m.TotalChunks.toNat none) m

/-- What the inbound loop receives on one iteration, as seen after the
transport and the JSON decoder: either the subscription erred, or a
message from `senderID` whose payload decodes to `.ok m` or fails to
decode (`.error`).  (The payload oracle is consulted only when the
message is not self-originated, matching the code order.) -/
inductive RecvEvent where
  | closed
  | fromPeer (senderID : String) (decoded : Except Unit chatMsg)

/-- One iteration of `listenForMessages` (lines 169-218): on a
subscription error, close `IncomingMessages`, log, and return; discard
self-originated messages; log and drop undecodable payloads; route
`"file"` messages to the chunk assembler and everything else to
`IncomingMessages`. -/
def listenStep (hostID : String) (st : FileChunks) (ev : RecvEvent) :
    ListenResult :=
  match ev with
  | .closed =>
      ⟨st, [.closedIncoming, .log ⟨"error", "Subscription closed unexpectedly"⟩],
        .stopped⟩
  | .fromPeer sender decoded =>
      if sender = hostID then ⟨st, [], .next⟩
      else
        match decoded with
        | .error _ =>
            ⟨st, [.log ⟨"error", "Failed to parse incoming message"⟩], .next⟩
        | .ok m =>
            if m.MsgType = "file" then ingestChunk st m
            else ⟨st, [.deliverIncoming m], .next⟩

/-- Iterated inbound loop over a list of received events; stops early
when an iteration returns or panics. -/
def runListen (hostID : String) (st : FileChunks) :
    List RecvEvent → ListenResult
  | [] => ⟨st, [], .next⟩
  | ev :: evs =>
      let r := listenStep hostID st ev
      match r.outcome with
      | .next =>
          let r2 := runListen hostID r.state evs
          ⟨r2.state, r.effects ++ r2.effects, r2.outcome⟩
      | o => ⟨r.state, r.effects, o⟩

/-- Observable effects of one `SendFile` call. -/
inductive SendEffect where
    /-- a log entry sent on `LogChannel` -/
  | log (e : logEntry)
    /-- `topic.Publish` of one encoded chunk message -/
  | publish (m : chatMsg)
deriving DecidableEq, Repr

/-- The chunk message built by `SendFile`'s loop (lines 141-149); fields
not mentioned in the Go struct literal keep their zero value. -/
def mkChunkMsg (senderID senderName fileName : String) (tc : Int) (i : Nat)
    (d : Bytes) : chatMsg :=
  { Text := "", SenderID := senderID, SenderName := senderName,
    MsgType := "file", FileName := fileName, ChunkIndex := (i : Int),
    TotalChunks := tc, ChunkData := some d }

/-- External failure oracle for one `SendFile` call: the opened file's
content (or an open error), whether `file.Stat` fails, and whether the
`i`-th `file.Read` call or the publish of the `i`-th chunk fails. -/
structure SendFileEnv where
  openRes    : Except String Bytes
  statFails  : Bool
  readFailAt : Option Nat
  pubFailAt  : Option Nat

/-- The read/publish loop of `SendFile` (lines 132-160): each iteration
reads the next chunk, builds a chunk message and publishes it; a read
error or a publish error aborts the call with an error (chunks already
published stay published); the loop ends when a read returns 0 bytes.
(`json.Marshal` of `chatMsg` cannot fail, so the marshal-error branch is
dead and not modelled.) -/
def sendLoop (hostID username fileName : String) (tc : Int)
    (readFailAt pubFailAt : Option Nat) :
    List Bytes → Nat → Except String Unit × List chatMsg
  | chunks, idx =>
    if readFailAt = some idx then (.error "error reading file", [])
    else
      match chunks with
      | [] => (.ok (), [])
      | c :: rest =>
          if pubFailAt = some idx then (.error "error publishing file chunk", [])
          else
            let r := sendLoop hostID username fileName tc readFailAt pubFailAt
              rest (idx + 1)
            (r.1, mkChunkMsg hostID username fileName tc idx c :: r.2)

/-- Models `filepath.Base` for ordinary paths: the suffix after the last
slash (trailing-slash and empty-path special cases of `filepath.Base`
are not needed by any claim and not modelled). -/
def baseName (p : String) : String :=
  String.mk ((p.data.reverse.takeWhile (fun c => c ≠ '/')).reverse)

/-- `SendFile` (lines 105-162): open the file, stat it, reject a size
above `maxFileSize`, compute `totalChunks = size/chunkSize + 1`, log,
then read and publish chunk by chunk. -/
def SendFileModel (hostID username filePath : String) (env : SendFileEnv) :
    Except String Unit × List SendEffect :=
  match env.openRes with
  | .error e => (.error ("unable to open file: " ++ e), [])
  | .ok content =>
      if env.statFails then (.error "stat failed", [])
      else if maxFileSize < content.length then
        (.error "file size exceeds the maximum allowed size", [])
      else
        let fileName := baseName filePath
        let tc := totalChunksOf content.length
        let r := sendLoop hostID username fileName tc env.readFailAt
          env.pubFailAt (splitChunks content) 0
        (r.1,
          .log ⟨"info", "Sending file " ++ fileName ++ " in " ++ toString tc ++ " chunks"⟩
            :: r.2.map .publish)

/-- The chunk messages a `SendFile` call actually handed to
`topic.Publish`, in emission order. -/
def publishedChunks (effs : List SendEffect) : List chatMsg :=
  effs.filterMap fun e =>
    match e with
    | .publish m => some m
    | .log _ => none

/-- With no read or publish failures, the loop publishes one message per
chunk, indexed consecutively from `idx`. -/
theorem sendLoop_ok (hostID username fileName : String) (tc : Int) :
    ∀ (chunks : List Bytes) (idx : Nat),
      (sendLoop hostID username fileName tc none none chunks idx).1 = .ok () ∧
      (sendLoop hostID username fileName tc none none chunks idx).2 =
        (List.range chunks.length).map
          (fun j => mkChunkMsg hostID username fileName tc (idx + j)
            (chunks.getD j [])) := by
  intro chunks
  induction chunks with
  | nil => intro idx; exact ⟨rfl, rfl⟩
  | cons c rest ih =>
      intro idx
      have h2 := ih (idx + 1)
      constructor
      · show (sendLoop hostID username fileName tc none none (c :: rest) idx).1 = .ok ()
        simp only [sendLoop]
        simpa using h2.1
      · show (sendLoop hostID username fileName tc none none (c :: rest) idx).2 = _
        simp only [sendLoop]
        simp only [reduceCtorEq, if_false, List.length_cons]
        rw [List.range_succ_eq_map, List.map_cons, List.map_map]
        congr 1
        rw [h2.2]
        apply List.map_congr_left
        intro j hj
        have harith : idx + 1 + j = idx + (j + 1) := by omega
        simp only [Function.comp, Nat.succ_eq_add_one, List.getD_cons_succ,
          List.getElem?_cons_succ, harith]

theorem publishedChunks_log_cons (e : logEntry) (effs : List SendEffect) :
    publishedChunks (.log e :: effs) = publishedChunks effs := rfl

theorem publishedChunks_map_publish (msgs : List chatMsg) :
    publishedChunks (msgs.map .publish) = msgs := by
  induction msgs with
  | nil => rfl
  | cons m rest ih => simp [publishedChunks] at ih ⊢; exact ih

/-- A `SendFile` call whose environment has no failures and whose file
fits the ceiling succeeds and publishes exactly the chunk messages of
the file, in index order. -/
theorem SendFileModel_ok (hostID username filePath : String) (content : Bytes)
    (hsz : content.length ≤ maxFileSize) :
    (SendFileModel hostID username filePath ⟨.ok content, false, none, none⟩).1 = .ok () ∧
    publishedChunks
        (SendFileModel hostID username filePath ⟨.ok content, false, none, none⟩).2 =
      (List.range (splitChunks content).length).map
        (fun j => mkChunkMsg hostID username (baseName filePath)
          (totalChunksOf content.length) j ((splitChunks content).getD j [])) := by
  have hloop := sendLoop_ok hostID username (baseName filePath)
    (totalChunksOf content.length) (splitChunks content) 0
  have hnot : ¬ maxFileSize < content.length := not_lt.mpr hsz
  constructor
  · simp only [SendFileModel, Bool.false_eq_true, if_false, hnot]
    exact hloop.1
  · simp only [SendFileModel, Bool.false_eq_true, if_false, hnot]
    rw [publishedChunks_log_cons, publishedChunks_map_publish, hloop.2]
    simp

/-- The slot slice of a transfer of `chunks` after exactly the chunk
indices in `S` have been stored: slot `i` holds chunk `i` when `i ∈ S`
and is still `nil` otherwise. -/
def fillSlots (chunks : List Bytes) (S : List Nat) : List (Option Bytes) :=
  (List.range chunks.length).map
    (fun i => if i ∈ S then some (chunks.getD i []) else none)

theorem fillSlots_length (chunks : List Bytes) (S : List Nat) :
    (fillSlots chunks S).length = chunks.length := by
  simp [fillSlots]

theorem fillSlots_getElem (chunks : List Bytes) (S : List Nat) (i : Nat)
    (hi : i < (fillSlots chunks S).length) :
    (fillSlots chunks S)[i] =
      if i ∈ S then some (chunks.getD i []) else none := by
  simp [fillSlots]

theorem fillSlots_empty (chunks : List Bytes) :
    fillSlots chunks [] = List.replicate chunks.length none := by
  apply List.ext_getElem
  · simp [fillSlots_length]
  · intro i h1 h2
    rw [fillSlots_getElem]
    simp

theorem fillSlots_set (chunks : List Bytes) (S : List Nat) (a : Nat) :
    (fillSlots chunks S).set a (some (chunks.getD a [])) =
      fillSlots chunks (a :: S) := by
  apply List.ext_getElem
  · simp [fillSlots_length]
  · intro i h1 h2
    rw [List.getElem_set, fillSlots_getElem]
    rw [List.length_set, fillSlots_length] at h1
    rw [fillSlots_getElem]
    by_cases hia : a = i
    · subst hia
      simp
    · simp only [if_neg hia, List.mem_cons]
      by_cases his : i ∈ S
      · simp [his]
      · have hne : i ≠ a := fun h => hia h.symm
        simp [his, hne]

theorem fillSlots_all_isSome (chunks : List Bytes) (S : List Nat) :
    ((fillSlots chunks S).all (fun c => c.isSome) = true) ↔
      ∀ i < chunks.length, i ∈ S := by
  rw [List.all_eq_true]
  constructor
  · intro h i hi
    have hmem : (if i ∈ S then some (chunks.getD i []) else none) ∈ fillSlots chunks S := by
      rw [fillSlots]
      exact List.mem_map_of_mem _ (List.mem_range.mpr hi)
    have := h _ hmem
    by_cases his : i ∈ S
    · exact his
    · simp [his] at this
  · intro h c hc
    rw [fillSlots, List.mem_map] at hc
    obtain ⟨i, hi, rfl⟩ := hc
    have := h i (List.mem_range.mp hi)
    simp [this]

theorem fillSlots_full (chunks : List Bytes) (S : List Nat)
    (h : ∀ i < chunks.length, i ∈ S) :
    fillSlots chunks S = chunks.map some := by
  apply List.ext_getElem
  · simp [fillSlots_length]
  · intro i h1 h2
    rw [fillSlots_getElem]
    rw [fillSlots_length] at h1
    rw [if_pos (h i h1)]
    simp [List.getD_eq_getElem?_getD, List.getElem?_eq_getElem h1]

theorem joinChunks_map_some (chunks : List Bytes) :
    joinChunks (chunks.map some) = chunks.flatten := by
  suffices hgen : ∀ (l : List Bytes) (acc : Bytes),
      (l.map some).foldl (fun acc c => acc ++ c.getD []) acc = acc ++ l.flatten by
    have := hgen chunks []
    simpa [joinChunks] using this
  intro l
  induction l with
  | nil => intro acc; simp
  | cons c rest ih =>
      intro acc
      simp only [List.map_cons, List.foldl_cons, List.flatten_cons, ih]
      simp

/-- A decoded message from another peer whose type tag is `"file"` is
routed to the chunk assembler. -/
theorem listenStep_file (hostID sender : String) (st : FileChunks) (m : chatMsg)
    (hs : sender ≠ hostID) (hm : m.MsgType = "file") :
    listenStep hostID st (.fromPeer sender (.ok m)) = ingestChunk st m := by
  simp [listenStep, hs, hm]

/-- Unfolding of `runListen` when the first iteration continues. -/
theorem runListen_cons_next (hostID : String) (st st2 : FileChunks)
    (ev : RecvEvent) (evs : List RecvEvent) (effs : List InEffect)
    (hstep : listenStep hostID st ev = ⟨st2, effs, .next⟩) :
    runListen hostID st (ev :: evs) =
      ⟨(runListen hostID st2 evs).state,
        effs ++ (runListen hostID st2 evs).effects,
        (runListen hostID st2 evs).outcome⟩ := by
  simp [runListen, hstep]

theorem ingestChunk_present (st : FileChunks) (m : chatMsg)
    (slots : List (Option Bytes))
    (hst : st (m.FileName ++ m.SenderID) = some slots) :
    ingestChunk st m = ingestInto st (m.FileName ++ m.SenderID) slots m := by
  simp [ingestChunk, hst]

theorem ingestChunk_absent (st : FileChunks) (m : chatMsg)
    (hst : st (m.FileName ++ m.SenderID) = none) (htc : 0 ≤ m.TotalChunks) :
    ingestChunk st m =
      ingestInto st (m.FileName ++ m.SenderID)
        (List.replicate m.TotalChunks.toNat none) m := by
  simp [ingestChunk, hst, not_lt.mpr htc]

/-- Storing an in-range chunk that does not yet complete the transfer
updates the slot slice and emits nothing. -/
theorem ingestInto_store (st : FileChunks) (key : String) (chunks : List Bytes)
    (S : List Nat) (m : chatMsg) (a : Nat)
    (hidx : m.ChunkIndex = (a : Int)) (ha : a < chunks.length)
    (hdata : m.ChunkData = some (chunks.getD a []))
    (hmiss : ¬ ∀ i < chunks.length, i ∈ a :: S) :
    ingestInto st key (fillSlots chunks S) m =
      ⟨mapInsert st key (fillSlots chunks (a :: S)), [], .next⟩ := by
  unfold ingestInto
  rw [hidx, hdata]
  rw [if_pos (by
    constructor
    · exact Int.ofNat_nonneg a
    · rw [fillSlots_length]
      exact_mod_cast ha)]
  simp only [Int.toNat_ofNat, fillSlots_set]
  rw [if_neg (by
    rw [fillSlots_all_isSome]
    exact hmiss)]

/-- Storing the last missing in-range chunk completes the transfer:
the key is deleted and the reassembled file is saved. -/
theorem ingestInto_complete (st : FileChunks) (key : String)
    (chunks : List Bytes) (S : List Nat) (m : chatMsg) (a : Nat)
    (hidx : m.ChunkIndex = (a : Int)) (ha : a < chunks.length)
    (hdata : m.ChunkData = some (chunks.getD a []))
    (hfull : ∀ i < chunks.length, i ∈ a :: S) :
    ingestInto st key (fillSlots chunks S) m =
      ⟨mapErase st key, [.savedFile m.FileName chunks.flatten], .next⟩ := by
  unfold ingestInto
  rw [hidx, hdata]
  rw [if_pos (by
    constructor
    · exact Int.ofNat_nonneg a
    · rw [fillSlots_length]
      exact_mod_cast ha)]
  simp only [Int.toNat_ofNat, fillSlots_set]
  rw [if_pos (by rw [fillSlots_all_isSome]; exact hfull)]
  rw [fillSlots_full _ _ hfull, joinChunks_map_some]

/-- The inbound event carrying chunk `i` of `chunks`, as produced by a
remote `SendFile` and decoded on this side. -/
def chunkRecv (sender uname fname : String) (tc : Int) (chunks : List Bytes)
    (i : Nat) : RecvEvent :=
  .fromPeer sender (.ok (mkChunkMsg sender uname fname tc i (chunks.getD i [])))

/-- Invariant induction for delivery-order independence: starting from
a state whose entry for the key holds exactly the chunks listed in `q`,
ingesting the remaining indices `p` (in any order: `q ++ p` is a
permutation of all indices) completes the transfer, saves the
reassembled file exactly once, keeps the loop running, and deletes the
key, leaving every other key untouched. -/
theorem runListen_perm_fill (host sender uname fname : String)
    (chunks : List Bytes) (tc : Int) (hs : sender ≠ host) :
    ∀ (p q : List Nat) (st : FileChunks), p ≠ [] →
      (q ++ p).Perm (List.range chunks.length) →
      (st (fname ++ sender) = some (fillSlots chunks q) ∨
        (q = [] ∧ st (fname ++ sender) = none ∧ tc.toNat = chunks.length ∧ 0 ≤ tc)) →
      (runListen host st (p.map (chunkRecv sender uname fname tc chunks))).effects
          = [.savedFile fname chunks.flatten] ∧
      (runListen host st (p.map (chunkRecv sender uname fname tc chunks))).outcome
          = .next ∧
      (runListen host st (p.map (chunkRecv sender uname fname tc chunks))).state
          (fname ++ sender) = none ∧
      ∀ k, k ≠ fname ++ sender →
        (runListen host st (p.map (chunkRecv sender uname fname tc chunks))).state k
          = st k := by
  intro p
  induction p with
  | nil => intro q st hne; exact absurd rfl hne
  | cons a p2 ih =>
      intro q st _ hperm hst
      have hnd : (q ++ a :: p2).Nodup := hperm.nodup_iff.mpr (List.nodup_range _)
      have hmem : ∀ i, i ∈ q ++ a :: p2 ↔ i < chunks.length := fun i => by
        rw [hperm.mem_iff, List.mem_range]
      have ha : a < chunks.length := (hmem a).mp (by simp)
      obtain ⟨hndq, hndr, hdisj⟩ := List.nodup_append.mp hnd
      have hmtc : (mkChunkMsg sender uname fname tc a (chunks.getD a [])).TotalChunks
          = tc := rfl
      have hred : ingestChunk st (mkChunkMsg sender uname fname tc a (chunks.getD a [])) =
          ingestInto st (fname ++ sender) (fillSlots chunks q)
            (mkChunkMsg sender uname fname tc a (chunks.getD a [])) := by
        rcases hst with hsome | ⟨hq, hnone, htc, htcpos⟩
        · exact ingestChunk_present st _ _ hsome
        · rw [ingestChunk_absent st _ hnone (by rw [hmtc]; exact htcpos)]
          rw [hmtc, htc, ← fillSlots_empty, hq]
          rfl
      cases p2 with
      | nil =>
          have hfull : ∀ i < chunks.length, i ∈ a :: q := by
            intro i hi
            rcases List.mem_append.mp ((hmem i).mpr hi) with h | h
            · exact List.mem_cons_of_mem _ h
            · simp only [List.mem_singleton] at h
              subst h
              exact List.mem_cons_self _ _
          have hstep : listenStep host st (chunkRecv sender uname fname tc chunks a) =
              ⟨mapErase st (fname ++ sender),
                [.savedFile fname chunks.flatten], .next⟩ := by
            rw [chunkRecv, listenStep_file host sender st _ hs rfl, hred,
              ingestInto_complete st _ chunks q _ a rfl ha rfl hfull]
            try rfl
          rw [List.map_cons, List.map_nil,
            runListen_cons_next host st _ _ _ _ hstep]
          refine ⟨by simp [runListen], by simp [runListen], ?_, ?_⟩
          · simp [runListen, mapErase]
          · intro k hk
            simp [runListen, mapErase, hk]
      | cons b rest =>
          have hb : b < chunks.length := (hmem b).mp (by simp)
          have hbna : b ≠ a := by
            have : a ∉ b :: rest := (List.nodup_cons.mp hndr).1
            intro hba
            exact this (hba ▸ List.mem_cons_self _ _)
          have hbnq : b ∉ q := fun hbq => hdisj hbq (by simp)
          have hmiss : ¬ ∀ i < chunks.length, i ∈ a :: q := by
            intro hall
            rcases List.mem_cons.mp (hall b hb) with h | h
            · exact hbna h
            · exact hbnq h
          have hstep : listenStep host st (chunkRecv sender uname fname tc chunks a) =
              ⟨mapInsert st (fname ++ sender) (fillSlots chunks (a :: q)),
                [], .next⟩ := by
            rw [chunkRecv, listenStep_file host sender st _ hs rfl, hred,
              ingestInto_store st _ chunks q _ a rfl ha rfl hmiss]
            try rfl
          rw [List.map_cons, runListen_cons_next host st _ _ _ _ hstep]
          have hperm2 : ((a :: q) ++ (b :: rest)).Perm (List.range chunks.length) := by
            refine List.Perm.trans ?_ hperm
            show (a :: (q ++ b :: rest)).Perm (q ++ a :: b :: rest)
            exact List.perm_middle.symm
          have hst2 : mapInsert st (fname ++ sender) (fillSlots chunks (a :: q))
              (fname ++ sender) = some (fillSlots chunks (a :: q)) := by
            simp [mapInsert]
          obtain ⟨he, ho, hk, hothers⟩ := ih (a :: q) _ (by simp) hperm2 (Or.inl hst2)
          simp only [List.map_cons] at he ho hk hothers
          refine ⟨by simpa using he, by simpa using ho, by simpa using hk, ?_⟩
          intro k hkne
          exact (hothers k hkne).trans (by simp [mapInsert, hkne])

theorem baseName_plain : baseName "f.txt" = "f.txt" := by decide

theorem replicate_ne_nil (n x : Nat) (h : 0 < n) :
    List.replicate n x ≠ ([] : Bytes) := by
  apply List.ne_nil_of_length_pos
  rw [List.length_replicate]
  exact h

/-- The one-chunk split of a 4096-byte file. -/
theorem splitChunks_replicate_4096 (x : Nat) :
    splitChunks (List.replicate 4096 x) = [List.replicate 4096 x] := by
  rw [splitChunks_cons _ (replicate_ne_nil 4096 x (by norm_num)),
    List.take_replicate, List.drop_replicate]
  norm_num [chunkSize]
  exact splitChunks_nil

/-- Claim C1: for a file whose size is a positive exact multiple of the
4096-byte chunk size (here 4096 bytes), `SendFile` publishes exactly
`size/chunkSize` = 1 chunk message (not 2) — but that message carries
`TotalChunks = size/chunkSize + 1 = 2`, so after ingesting all 1 distinct
chunk index the assembler's 2-slot slice still has an empty slot: no
completed file is ever emitted, contradicting the claim's second half. -/
theorem c1_exact_multiple_no_completion :
    (SendFileModel "alice" "u" "f.txt" ⟨.ok (List.replicate 4096 0), false, none, none⟩).1
        = .ok () ∧
    publishedChunks
        (SendFileModel "alice" "u" "f.txt" ⟨.ok (List.replicate 4096 0), false, none, none⟩).2
      = [mkChunkMsg "alice" "u" "f.txt" 2 0 (List.replicate 4096 0)] ∧
    (List.replicate 4096 (0 : Nat)).length / chunkSize = 1 ∧
    totalChunksOf (List.replicate 4096 (0 : Nat)).length = 2 ∧
    (runListen "bob" emptyFileChunks
        [.fromPeer "alice" (.ok (mkChunkMsg "alice" "u" "f.txt" 2 0 (List.replicate 4096 0)))]).effects
      = [] ∧
    (runListen "bob" emptyFileChunks
        [.fromPeer "alice" (.ok (mkChunkMsg "alice" "u" "f.txt" 2 0 (List.replicate 4096 0)))]).outcome
      = .next := by
  have hsplit := splitChunks_replicate_4096 0
  have htc : totalChunksOf (List.replicate 4096 (0 : Nat)).length = 2 := by
    rw [List.length_replicate]
    norm_num [totalChunksOf, chunkSize]
  obtain ⟨hok, hpub⟩ := SendFileModel_ok "alice" "u" "f.txt" (List.replicate 4096 0)
    (by rw [List.length_replicate]; norm_num [maxFileSize])
  have hstep : listenStep "bob" emptyFileChunks
      (.fromPeer "alice" (.ok (mkChunkMsg "alice" "u" "f.txt" 2 0 (List.replicate 4096 0)))) =
      ⟨mapInsert emptyFileChunks ("f.txt" ++ "alice")
        (fillSlots [List.replicate 4096 0, []] [0]), [], .next⟩ := by
    rw [listenStep_file _ _ _ _ (by decide) rfl,
      ingestChunk_absent _ _ rfl (by decide)]
    have h2 : (mkChunkMsg "alice" "u" "f.txt" 2 0
        (List.replicate 4096 (0:Nat))).TotalChunks.toNat = 2 := rfl
    rw [h2, show (List.replicate 2 (none : Option Bytes)) =
        fillSlots [List.replicate 4096 0, []] [] from by
          rw [fillSlots_empty]; rfl]
    rw [show (mkChunkMsg "alice" "u" "f.txt" 2 0 (List.replicate 4096 (0:Nat))) =
        mkChunkMsg "alice" "u" "f.txt" 2 0
          (([List.replicate 4096 0, []] : List Bytes).getD 0 []) from rfl]
    rw [ingestInto_store _ _ [List.replicate 4096 0, []] [] _ 0 rfl (by norm_num) rfl
      (by
        intro hall
        have h1 := hall 1 (by norm_num)
        simp at h1)]
    rfl
  refine ⟨hok, ?_, by rw [List.length_replicate]; norm_num [chunkSize], htc, ?_, ?_⟩
  · rw [hpub, hsplit, htc, baseName_plain]
    have hr : List.range ([List.replicate 4096 (0:Nat)] : List Bytes).length = [0] := rfl
    rw [hr, List.map_cons, List.map_nil]
    rfl
  · rw [runListen_cons_next _ _ _ _ _ _ hstep]
    rfl
  · rw [runListen_cons_next _ _ _ _ _ _ hstep]
    rfl

/-- Claim C2: a FileChunk whose `chunkIndex` is outside
`[0, totalChunks)` is written through an unchecked Go slice index:
the inbound goroutine panics (index out of range), with no error log
entry, rather than discarding the chunk. -/
theorem c2_out_of_range_panics :
    (listenStep "bob" emptyFileChunks (.fromPeer "alice"
        (.ok ⟨"", "alice", "u", "file", "f.txt", 5, 3, some [1]⟩))).outcome
      = .panicked "index out of range" ∧
    (listenStep "bob" emptyFileChunks (.fromPeer "alice"
        (.ok ⟨"", "alice", "u", "file", "f.txt", 5, 3, some [1]⟩))).effects = [] ∧
    (listenStep "bob" emptyFileChunks (.fromPeer "alice"
        (.ok ⟨"", "alice", "u", "file", "f.txt", -1, 3, some [1]⟩))).outcome
      = .panicked "index out of range" ∧
    (listenStep "bob" emptyFileChunks (.fromPeer "alice"
        (.ok ⟨"", "alice", "u", "file", "f.txt", 0, -2, some [1]⟩))).outcome
      = .panicked "makeslice: len out of range" := by
  refine ⟨by decide, by decide, by decide, by decide⟩

/-- Claim C3 (amended): for every file accepted by `SendFile` whose size
is not an exact multiple of the chunk size, a failure-free `SendFile`
publishes exactly the file's chunk messages in index order, and
ingesting those messages in any permutation makes the assembler emit
exactly one completed file whose bytes are identical to the original. -/
theorem c3_reassembly_any_order (file : Bytes) (host sender uname fpath : String)
    (p : List Nat)
    (hs : sender ≠ host)
    (hsize : file.length ≤ maxFileSize)
    (hmod : file.length % chunkSize ≠ 0)
    (hp : p.Perm (List.range (splitChunks file).length)) :
    (SendFileModel sender uname fpath ⟨.ok file, false, none, none⟩).1 = .ok () ∧
    publishedChunks
        (SendFileModel sender uname fpath ⟨.ok file, false, none, none⟩).2 =
      (List.range (splitChunks file).length).map
        (fun j => mkChunkMsg sender uname (baseName fpath)
          (totalChunksOf file.length) j ((splitChunks file).getD j [])) ∧
    (runListen host emptyFileChunks
        (p.map (chunkRecv sender uname (baseName fpath) (totalChunksOf file.length)
          (splitChunks file)))).effects
      = [.savedFile (baseName fpath) file] ∧
    (runListen host emptyFileChunks
        (p.map (chunkRecv sender uname (baseName fpath) (totalChunksOf file.length)
          (splitChunks file)))).outcome = .next := by
  obtain ⟨hok, hpub⟩ := SendFileModel_ok sender uname fpath file hsize
  have hk : (splitChunks file).length = file.length / chunkSize + 1 :=
    length_splitChunks_not_exact file hmod
  have htc : (totalChunksOf file.length).toNat = (splitChunks file).length := by
    rw [hk]
    simp only [totalChunksOf, chunkSize]
    omega
  have htcpos : 0 ≤ totalChunksOf file.length := by
    simp only [totalChunksOf, chunkSize]
    omega
  have hpne : p ≠ [] := by
    intro hnil
    have hlen := hp.length_eq
    rw [hnil] at hlen
    simp only [List.length_nil, List.length_range] at hlen
    rw [hk] at hlen
    simp only [chunkSize] at hlen
    omega
  obtain ⟨he, ho, _, _⟩ := runListen_perm_fill host sender uname (baseName fpath)
    (splitChunks file) (totalChunksOf file.length) hs p [] emptyFileChunks hpne
    hp (Or.inr ⟨rfl, rfl, htc, htcpos⟩)
  rw [join_splitChunks] at he
  exact ⟨hok, hpub, he, ho⟩

/-- The two-chunk split of an 8192-byte file. -/
theorem splitChunks_replicate_8192 (x : Nat) :
    splitChunks (List.replicate 8192 x) =
      [List.replicate 4096 x, List.replicate 4096 x] := by
  rw [splitChunks_cons _ (replicate_ne_nil 8192 x (by norm_num)),
    List.take_replicate, List.drop_replicate]
  norm_num [chunkSize]
  rw [splitChunks_replicate_4096 x]

/-- Claim C3 fails as stated: an 8192-byte file is accepted by
`SendFile` (it is below the ceiling) and both of its published chunks
are ingested, in the permutation order 1, 0 — yet the assembler emits no
completed file at all (the `totalChunks = 3` field leaves a third slot
forever empty), instead of exactly one byte-identical file. -/
theorem c3_counterexample_exact_multiple :
    (List.replicate 8192 (3 : Nat)).length ≤ maxFileSize ∧
    (SendFileModel "alice" "u" "f.txt"
        ⟨.ok (List.replicate 8192 3), false, none, none⟩).1 = .ok () ∧
    publishedChunks (SendFileModel "alice" "u" "f.txt"
        ⟨.ok (List.replicate 8192 3), false, none, none⟩).2 =
      [mkChunkMsg "alice" "u" "f.txt" 3 0 (List.replicate 4096 3),
       mkChunkMsg "alice" "u" "f.txt" 3 1 (List.replicate 4096 3)] ∧
    (runListen "bob" emptyFileChunks
        [.fromPeer "alice" (.ok (mkChunkMsg "alice" "u" "f.txt" 3 1 (List.replicate 4096 3))),
         .fromPeer "alice" (.ok (mkChunkMsg "alice" "u" "f.txt" 3 0 (List.replicate 4096 3)))]).effects
      = [] := by
  have hsize : (List.replicate 8192 (3 : Nat)).length ≤ maxFileSize := by
    rw [List.length_replicate]
    norm_num [maxFileSize]
  have hsplit := splitChunks_replicate_8192 3
  have htc : totalChunksOf (List.replicate 8192 (3 : Nat)).length = 3 := by
    rw [List.length_replicate]
    norm_num [totalChunksOf, chunkSize]
  obtain ⟨hok, hpub⟩ := SendFileModel_ok "alice" "u" "f.txt" (List.replicate 8192 3) hsize
  refine ⟨hsize, hok, ?_, ?_⟩
  · rw [hpub, hsplit, htc, baseName_plain]
    have hr : List.range ([List.replicate 4096 (3:Nat),
        List.replicate 4096 3] : List Bytes).length = [0, 1] := rfl
    rw [hr, List.map_cons, List.map_cons, List.map_nil]
    rfl
  · have hstep1 : listenStep "bob" emptyFileChunks
        (.fromPeer "alice" (.ok (mkChunkMsg "alice" "u" "f.txt" 3 1 (List.replicate 4096 3)))) =
        ⟨mapInsert emptyFileChunks ("f.txt" ++ "alice")
          (fillSlots [List.replicate 4096 3, List.replicate 4096 3, []] [1]), [], .next⟩ := by
      rw [listenStep_file _ _ _ _ (by decide) rfl,
        ingestChunk_absent _ _ rfl (by decide)]
      have h2 : (mkChunkMsg "alice" "u" "f.txt" 3 1
          (List.replicate 4096 (3:Nat))).TotalChunks.toNat = 3 := rfl
      rw [h2, show (List.replicate 3 (none : Option Bytes)) =
          fillSlots [List.replicate 4096 3, List.replicate 4096 3, []] [] from by
            rw [fillSlots_empty]; rfl]
      rw [show (mkChunkMsg "alice" "u" "f.txt" 3 1 (List.replicate 4096 (3:Nat))) =
          mkChunkMsg "alice" "u" "f.txt" 3 1
            (([List.replicate 4096 3, List.replicate 4096 3, []] : List Bytes).getD 1 [])
          from rfl]
      rw [ingestInto_store _ _ [List.replicate 4096 3, List.replicate 4096 3, []] [] _ 1
        rfl (by norm_num) rfl
        (by
          intro hall
          have h0 := hall 0 (by norm_num)
          simp at h0)]
      rfl
    have hstep2 : listenStep "bob"
        (mapInsert emptyFileChunks ("f.txt" ++ "alice")
          (fillSlots [List.replicate 4096 3, List.replicate 4096 3, []] [1]))
        (.fromPeer "alice" (.ok (mkChunkMsg "alice" "u" "f.txt" 3 0 (List.replicate 4096 3)))) =
        ⟨mapInsert
            (mapInsert emptyFileChunks ("f.txt" ++ "alice")
              (fillSlots [List.replicate 4096 3, List.replicate 4096 3, []] [1]))
            ("f.txt" ++ "alice")
            (fillSlots [List.replicate 4096 3, List.replicate 4096 3, []] [0, 1]),
          [], .next⟩ := by
      rw [listenStep_file _ _ _ _ (by decide) rfl,
        ingestChunk_present _ _
          (fillSlots [List.replicate 4096 3, List.replicate 4096 3, []] [1]) rfl]
      rw [show (mkChunkMsg "alice" "u" "f.txt" 3 0 (List.replicate 4096 (3:Nat))) =
          mkChunkMsg "alice" "u" "f.txt" 3 0
            (([List.replicate 4096 3, List.replicate 4096 3, []] : List Bytes).getD 0 [])
          from rfl]
      rw [ingestInto_store _ _ [List.replicate 4096 3, List.replicate 4096 3, []] [1] _ 0
        rfl (by norm_num) rfl
        (by
          intro hall
          have h2 := hall 2 (by norm_num)
          simp at h2)]
      rfl
    rw [runListen_cons_next _ _ _ _ _ _ hstep1]
    rw [runListen_cons_next _ _ _ _ _ _ hstep2]
    rfl

/-- The three-chunk split of a 10000-byte file. -/
theorem splitChunks_replicate_10000 (x : Nat) :
    splitChunks (List.replicate 10000 x) =
      [List.replicate 4096 x, List.replicate 4096 x, List.replicate 1808 x] := by
  rw [splitChunks_cons _ (replicate_ne_nil 10000 x (by norm_num)),
    List.take_replicate, List.drop_replicate]
  norm_num [chunkSize]
  rw [splitChunks_cons _ (replicate_ne_nil 5904 x (by norm_num)),
    List.take_replicate, List.drop_replicate]
  norm_num [chunkSize]
  rw [splitChunks_cons _ (replicate_ne_nil 1808 x (by norm_num)),
    List.take_replicate, List.drop_replicate]
  norm_num [chunkSize]
  exact splitChunks_nil

/-- Witness for claim C3: a 10000-byte file with 4096-byte chunks splits
into chunks of sizes 4096, 4096, 1808, and ingesting them in the order
2, 0, 1 makes the assembler emit exactly one completed file equal to the
original 10000 bytes. -/
theorem c3_reassembly_any_order_witness :
    ("alice" : String) ≠ "bob" ∧
    (List.replicate 10000 (7 : Nat)).length ≤ maxFileSize ∧
    (List.replicate 10000 (7 : Nat)).length % chunkSize ≠ 0 ∧
    List.Perm [2, 0, 1]
      (List.range (splitChunks (List.replicate 10000 (7 : Nat))).length) ∧
    (splitChunks (List.replicate 10000 (7 : Nat))).map List.length
      = [4096, 4096, 1808] ∧
    (runListen "bob" emptyFileChunks
        ([2, 0, 1].map (chunkRecv "alice" "alice" (baseName "f.txt")
          (totalChunksOf (List.replicate 10000 (7 : Nat)).length)
          (splitChunks (List.replicate 10000 (7 : Nat)))))).effects
      = [.savedFile (baseName "f.txt") (List.replicate 10000 7)] := by
  have hsplit := splitChunks_replicate_10000 7
  have h1 : ("alice" : String) ≠ "bob" := by decide
  have h2 : (List.replicate 10000 (7 : Nat)).length ≤ maxFileSize := by
    rw [List.length_replicate]
    norm_num [maxFileSize]
  have h3 : (List.replicate 10000 (7 : Nat)).length % chunkSize ≠ 0 := by
    rw [List.length_replicate]
    norm_num [chunkSize]
  have hk3 : (splitChunks (List.replicate 10000 (7 : Nat))).length = 3 := by
    rw [hsplit]
    rfl
  have h4 : List.Perm [2, 0, 1]
      (List.range (splitChunks (List.replicate 10000 (7 : Nat))).length) := by
    rw [hk3]
    decide
  have h5 : (splitChunks (List.replicate 10000 (7 : Nat))).map List.length
      = [4096, 4096, 1808] := by
    rw [hsplit, List.map_cons, List.map_cons, List.map_cons, List.map_nil,
      List.length_replicate, List.length_replicate]
  exact ⟨h1, h2, h3, h4, h5,
    (c3_reassembly_any_order (List.replicate 10000 7) "bob" "alice" "alice" "f.txt"
      [2, 0, 1] h1 h2 h3 h4).2.2.1⟩

/-- Claim C6: every message whose sender equals the local host identity
is discarded before decoding: the iteration delivers nothing to the
inbound queue, forwards nothing to the assembler (the transfer state is
untouched), emits no log, and the loop continues. -/
theorem c6_self_discard (hostID : String) (st : FileChunks)
    (payload : Except Unit chatMsg) :
    listenStep hostID st (.fromPeer hostID payload) = ⟨st, [], .next⟩ := by
  simp [listenStep]

/-- Claim C9: an inbound record that fails to decode is logged and
dropped: the transfer state is untouched, nothing reaches any queue,
and the loop continues with the next iteration. -/
theorem c9_decode_error_drops (hostID sender : String) (st : FileChunks)
    (e : Unit) (hs : sender ≠ hostID) :
    listenStep hostID st (.fromPeer sender (.error e)) =
      ⟨st, [.log ⟨"error", "Failed to parse incoming message"⟩], .next⟩ := by
  simp [listenStep, hs]

theorem c9_decode_error_drops_witness :
    ("alice" : String) ≠ "bob" ∧
    listenStep "bob" emptyFileChunks (.fromPeer "alice" (.error ())) =
      ⟨emptyFileChunks, [.log ⟨"error", "Failed to parse incoming message"⟩], .next⟩ :=
  ⟨by decide, c9_decode_error_drops "bob" "alice" emptyFileChunks () (by decide)⟩

theorem ingestInto_effects_savedFile (st : FileChunks) (key : String)
    (slots : List (Option Bytes)) (m : chatMsg) :
    ∀ e ∈ (ingestInto st key slots m).effects, ∃ n c, e = InEffect.savedFile n c := by
  intro e he
  unfold ingestInto at he
  split at he
  · by_cases h2 : ((slots.set m.ChunkIndex.toNat m.ChunkData).all fun c => c.isSome) = true
    · simp [h2] at he
      exact ⟨_, _, he⟩
    · simp [h2] at he
  · simp at he

/-- Every effect of the chunk assembler is a saved file: it never
delivers anything to the text inbound queue. -/
theorem ingestChunk_effects_savedFile (st : FileChunks) (m : chatMsg) :
    ∀ e ∈ (ingestChunk st m).effects, ∃ n c, e = InEffect.savedFile n c := by
  intro e he
  unfold ingestChunk at he
  cases hsm : st (m.FileName ++ m.SenderID) with
  | some slots =>
      simp only [hsm] at he
      exact ingestInto_effects_savedFile _ _ _ _ e he
  | none =>
      simp only [hsm] at he
      by_cases htc : m.TotalChunks < 0
      · simp [htc] at he
      · simp only [if_neg htc] at he
        exact ingestInto_effects_savedFile _ _ _ _ e he

/-- Claim C10: a decoded message from another peer is routed on the
`msg_type` string alone: any value other than exactly `"file"`
(including the empty string) is delivered to the text inbound queue with
the transfer state untouched, and only `"file"` messages reach the
assembler (which never delivers to the text queue). -/
theorem c10_routing (hostID sender : String) (st : FileChunks) (m : chatMsg)
    (hs : sender ≠ hostID) :
    (m.MsgType ≠ "file" →
      listenStep hostID st (.fromPeer sender (.ok m)) =
        ⟨st, [.deliverIncoming m], .next⟩) ∧
    (m.MsgType = "file" →
      ∀ e ∈ (listenStep hostID st (.fromPeer sender (.ok m))).effects,
        ∀ m2 : chatMsg, e ≠ .deliverIncoming m2) := by
  constructor
  · intro hm
    simp [listenStep, hs, hm]
  · intro hm e he m2
    rw [listenStep_file hostID sender st m hs hm] at he
    obtain ⟨n, c, rfl⟩ := ingestChunk_effects_savedFile st m e he
    simp

theorem c10_routing_witness :
    ("alice" : String) ≠ "bob" ∧
    (⟨"hi", "alice", "u", "", "", 0, 0, none⟩ : chatMsg).MsgType ≠ "file" ∧
    listenStep "bob" emptyFileChunks
        (.fromPeer "alice" (.ok ⟨"hi", "alice", "u", "", "", 0, 0, none⟩)) =
      ⟨emptyFileChunks, [.deliverIncoming ⟨"hi", "alice", "u", "", "", 0, 0, none⟩], .next⟩ ∧
    listenStep "bob" emptyFileChunks
        (.fromPeer "alice" (.ok ⟨"x", "alice", "u", "weird", "", 0, 0, none⟩)) =
      ⟨emptyFileChunks, [.deliverIncoming ⟨"x", "alice", "u", "weird", "", 0, 0, none⟩], .next⟩ :=
  ⟨by decide, by decide,
    (c10_routing "bob" "alice" emptyFileChunks _ (by decide)).1 (by decide),
    (c10_routing "bob" "alice" emptyFileChunks _ (by decide)).1 (by decide)⟩

/-- One dequeue of the outbound loop: the text taken from
`OutgoingMessages`, the value of the mutable `c.Username` field at that
iteration, and whether `topic.Publish` succeeds. -/
structure OutboundItem where
  text     : String
  username : String
  pubOk    : Bool
deriving DecidableEq, Repr

/-- The Text message built by `publishMessages` (lines 265-269); fields
not mentioned in the Go struct literal keep their zero value. -/
def mkTextMsg (hostID : String) (it : OutboundItem) : chatMsg :=
  { Text := it.text, SenderID := hostID, SenderName := it.username,
    MsgType := "", FileName := "", ChunkIndex := 0, TotalChunks := 0,
    ChunkData := none }

/-- The outbound loop `publishMessages` (lines 259-283) over a finite
sequence of dequeues: each message is encoded and published in dequeue
order; a publish failure logs an error and continues with the next
message (`json.Marshal` of `chatMsg` cannot fail, so that branch is
dead and not modelled).  Returns the published stream and the error
log. -/
def publishLoop (hostID : String) : List OutboundItem → List chatMsg × List logEntry
  | [] => ([], [])
  | it :: rest =>
      let r := publishLoop hostID rest
      if it.pubOk then (mkTextMsg hostID it :: r.1, r.2)
      else (r.1, ⟨"error", "Failed to publish message"⟩ :: r.2)

/-- Claim C7: the outbound loop publishes the enqueued texts over the
Topic in exactly the enqueue (FIFO) order — in general the published
stream is the in-order image of the successfully published dequeues,
and when every publish succeeds it is exactly the full enqueue order —
each message tagged with the local sender identity and the username
current at its publish time. -/
theorem c7_outbound_fifo (hostID : String) (items : List OutboundItem) :
    (publishLoop hostID items).1 =
      (items.filter (fun it => it.pubOk)).map (mkTextMsg hostID) ∧
    ((∀ it ∈ items, it.pubOk = true) →
      (publishLoop hostID items).1 = items.map (mkTextMsg hostID)) := by
  constructor
  · induction items with
    | nil => rfl
    | cons it rest ih =>
        by_cases hok : it.pubOk = true
        · simp [publishLoop, hok, List.filter_cons, ih]
        · simp only [Bool.not_eq_true] at hok
          simp [publishLoop, hok, List.filter_cons, ih]
  · intro hall
    induction items with
    | nil => rfl
    | cons it rest ih =>
        have h1 := hall it (by simp)
        simp [publishLoop, h1, ih (fun x hx => hall x (by simp [hx]))]

theorem c7_outbound_fifo_witness :
    (∀ it ∈ ([⟨"one", "alice", true⟩, ⟨"two", "alice2", true⟩] : List OutboundItem),
      it.pubOk = true) ∧
    (publishLoop "host" [⟨"one", "alice", true⟩, ⟨"two", "alice2", true⟩]).1 =
      [mkTextMsg "host" ⟨"one", "alice", true⟩, mkTextMsg "host" ⟨"two", "alice2", true⟩] :=
  ⟨by decide,
    (c7_outbound_fifo "host" [⟨"one", "alice", true⟩, ⟨"two", "alice2", true⟩]).2
      (by decide)⟩

/-- The two-chunk split of a 4097-byte file. -/
theorem splitChunks_replicate_4097 (x : Nat) :
    splitChunks (List.replicate 4097 x) =
      [List.replicate 4096 x, List.replicate 1 x] := by
  rw [splitChunks_cons _ (replicate_ne_nil 4097 x (by norm_num)),
    List.take_replicate, List.drop_replicate]
  norm_num [chunkSize]
  show splitChunks (List.replicate 1 x) = [List.replicate 1 x]
  rw [splitChunks_cons _ (replicate_ne_nil 1 x (by norm_num)),
    List.take_replicate, List.drop_replicate]
  norm_num [chunkSize]
  exact splitChunks_nil

theorem sendLoop_read_fail (h u f : String) (tc : Int) (pf : Option Nat)
    (chunks : List Bytes) (idx : Nat) :
    sendLoop h u f tc (some idx) pf chunks idx =
      (.error "error reading file", []) := by
  cases chunks with
  | nil =>
      have key : sendLoop h u f tc (some idx) pf [] idx =
          (if some idx = some idx then
            ((.error "error reading file" : Except String Unit), ([] : List chatMsg))
          else (.ok (), [])) := rfl
      rw [key, if_pos rfl]
  | cons c rest =>
      have key : sendLoop h u f tc (some idx) pf (c :: rest) idx =
          (if some idx = some idx then
            ((.error "error reading file" : Except String Unit), ([] : List chatMsg))
          else if pf = some idx then (.error "error publishing file chunk", [])
          else ((sendLoop h u f tc (some idx) pf rest (idx + 1)).1,
            mkChunkMsg h u f tc idx c ::
              (sendLoop h u f tc (some idx) pf rest (idx + 1)).2)) := rfl
      rw [key, if_pos rfl]

theorem sendLoop_cons_ok (h u f : String) (tc : Int) (rf pf : Option Nat)
    (c : Bytes) (rest : List Bytes) (idx : Nat)
    (hrf : rf ≠ some idx) (hpf : pf ≠ some idx) :
    sendLoop h u f tc rf pf (c :: rest) idx =
      ((sendLoop h u f tc rf pf rest (idx + 1)).1,
        mkChunkMsg h u f tc idx c :: (sendLoop h u f tc rf pf rest (idx + 1)).2) := by
  have key : sendLoop h u f tc rf pf (c :: rest) idx =
      (if rf = some idx then
        ((.error "error reading file" : Except String Unit), ([] : List chatMsg))
      else if pf = some idx then (.error "error publishing file chunk", [])
      else ((sendLoop h u f tc rf pf rest (idx + 1)).1,
        mkChunkMsg h u f tc idx c ::
          (sendLoop h u f tc rf pf rest (idx + 1)).2)) := rfl
  rw [key, if_neg hrf, if_neg hpf]

/-- Claim C8 fails as stated: on a 4097-byte file whose second
`file.Read` call fails, `SendFile` returns an error *after* the first
chunk has already been published — a partial transfer has started. -/
theorem c8_counterexample_partial_transfer :
    (SendFileModel "alice" "u" "f.txt"
        ⟨.ok (List.replicate 4097 9), false, some 1, none⟩).1
      = .error "error reading file" ∧
    publishedChunks (SendFileModel "alice" "u" "f.txt"
        ⟨.ok (List.replicate 4097 9), false, some 1, none⟩).2
      = [mkChunkMsg "alice" "u" (baseName "f.txt")
          (totalChunksOf (List.replicate 4097 (9 : Nat)).length) 0
          (List.replicate 4096 9)] := by
  have hnot : ¬ maxFileSize < (List.replicate 4097 (9 : Nat)).length := by
    rw [List.length_replicate]
    norm_num [maxFileSize]
  have hloop : sendLoop "alice" "u" (baseName "f.txt")
      (totalChunksOf (List.replicate 4097 (9 : Nat)).length) (some 1) none
      (splitChunks (List.replicate 4097 9)) 0 =
      (.error "error reading file",
        [mkChunkMsg "alice" "u" (baseName "f.txt")
          (totalChunksOf (List.replicate 4097 (9 : Nat)).length) 0
          (List.replicate 4096 9)]) := by
    rw [splitChunks_replicate_4097 9]
    rw [sendLoop_cons_ok _ _ _ _ _ _ _ _ _ (by decide) (by decide),
      sendLoop_read_fail]
  constructor
  · show (SendFileModel _ _ _ _).1 = _
    simp only [SendFileModel, Bool.false_eq_true, if_false, hnot, hloop]
  · show publishedChunks (SendFileModel _ _ _ _).2 = _
    simp only [SendFileModel, Bool.false_eq_true, if_false, hnot, hloop]
    rw [publishedChunks_log_cons, publishedChunks_map_publish]

/-- Claim C8 (amended): `SendFile` returns an error for a missing file,
a stat failure, a file above the 100 KiB ceiling, or a read failure;
for every error detected before the first chunk is sent (missing file,
stat failure, oversize, failure of the very first read) no chunk
message has been published — but an error striking after some chunks
were published (see the counterexample) leaves those chunks sent. -/
theorem c8_errors_no_publish_before_loop (hostID username fpath : String)
    (env : SendFileEnv) :
    (∀ e, env.openRes = .error e →
      (SendFileModel hostID username fpath env).1
          = .error ("unable to open file: " ++ e) ∧
      publishedChunks (SendFileModel hostID username fpath env).2 = []) ∧
    (∀ content, env.openRes = .ok content → env.statFails = true →
      (SendFileModel hostID username fpath env).1 = .error "stat failed" ∧
      publishedChunks (SendFileModel hostID username fpath env).2 = []) ∧
    (∀ content, env.openRes = .ok content → env.statFails = false →
      maxFileSize < content.length →
      (SendFileModel hostID username fpath env).1
          = .error "file size exceeds the maximum allowed size" ∧
      publishedChunks (SendFileModel hostID username fpath env).2 = []) ∧
    (∀ content, env.openRes = .ok content → env.statFails = false →
      content.length ≤ maxFileSize → env.readFailAt = some 0 →
      (SendFileModel hostID username fpath env).1 = .error "error reading file" ∧
      publishedChunks (SendFileModel hostID username fpath env).2 = []) := by
  refine ⟨?_, ?_, ?_, ?_⟩
  · intro e he
    simp [SendFileModel, he, publishedChunks]
  · intro content hc hstat
    simp [SendFileModel, hc, hstat, publishedChunks]
  · intro content hc hstat hbig
    simp [SendFileModel, hc, hstat, hbig, publishedChunks]
  · intro content hc hstat hsz hread
    have hnot : ¬ maxFileSize < content.length := not_lt.mpr hsz
    rw [show (SendFileModel hostID username fpath env) =
        ((sendLoop hostID username (baseName fpath) (totalChunksOf content.length)
            env.readFailAt env.pubFailAt (splitChunks content) 0).1,
          .log ⟨"info", "Sending file " ++ baseName fpath ++ " in "
              ++ toString (totalChunksOf content.length) ++ " chunks"⟩
            :: (sendLoop hostID username (baseName fpath) (totalChunksOf content.length)
                env.readFailAt env.pubFailAt (splitChunks content) 0).2.map .publish)
        from by simp [SendFileModel, hc, hstat, hnot]]
    rw [hread, sendLoop_read_fail]
    exact ⟨rfl, rfl⟩

theorem c8_errors_no_publish_before_loop_witness :
    ((SendFileModel "h" "u" "f.txt" ⟨.error "no such file", false, none, none⟩).1
        = .error ("unable to open file: " ++ "no such file") ∧
      publishedChunks
        (SendFileModel "h" "u" "f.txt" ⟨.error "no such file", false, none, none⟩).2 = []) ∧
    ((SendFileModel "h" "u" "f.txt"
          ⟨.ok (List.replicate 102401 0), false, none, none⟩).1
        = .error "file size exceeds the maximum allowed size" ∧
      publishedChunks (SendFileModel "h" "u" "f.txt"
          ⟨.ok (List.replicate 102401 0), false, none, none⟩).2 = []) ∧
    ((SendFileModel "h" "u" "f.txt" ⟨.ok [1, 2, 3], false, some 0, none⟩).1
        = .error "error reading file" ∧
      publishedChunks
        (SendFileModel "h" "u" "f.txt" ⟨.ok [1, 2, 3], false, some 0, none⟩).2 = []) :=
  ⟨(c8_errors_no_publish_before_loop "h" "u" "f.txt" _).1 "no such file" rfl,
    (c8_errors_no_publish_before_loop "h" "u" "f.txt" _).2.2.1
      (List.replicate 102401 0) rfl rfl
      (by rw [List.length_replicate]; norm_num [maxFileSize]),
    (c8_errors_no_publish_before_loop "h" "u" "f.txt" _).2.2.2
      [1, 2, 3] rfl rfl (by norm_num [maxFileSize]) rfl⟩

/-- The fields of a ChatRoom relevant to room switching. -/
structure Room where
  RoomName : String
  Username : String
deriving DecidableEq, Repr

/-- `JoinRoom` (lines 59-103): default an empty username to `"guest"`
and an empty room to `"lobby"`; the pubsub join/subscribe may fail,
which the `joinFails` oracle models (the only failure points). -/
def joinRoom (username room : String) (joinFails : Bool) : Except String Room :=
  if joinFails then .error "join failed"
  else
    .ok { RoomName := if room = "" then "lobby" else room,
          Username := if username = "" then "guest" else username }

/-- Observable events of the `/r` branch of `handlecommand`, in
program order. -/
inductive SwitchEvent where
    /-- a log entry sent on the log channel -/
  | logged (e : logEntry)
    /-- `ui.ChatRoom = newchatroom`: the new room published as the
        active reference -/
  | assignedActive (r : Room)
    /-- `time.Sleep(time.Second * 1)` -/
  | sleptSecond
    /-- `oldchatroom.Leave()` -/
  | leaveCalled (r : Room)
    /-- `ui.messageBox.Clear()` -/
  | clearedMessages
    /-- `ui.messageBox.SetTitle(...)` -/
  | setTitle (t : String)
deriving DecidableEq, Repr

/-- The `/r <arg>` branch of `handlecommand` (part_002 lines 205-233):
reject an empty room name with a `badcmd` log; otherwise construct the
new room; on failure log `jumperr` and leave the active room untouched;
on success assign the new room as the active reference, sleep one
second, call `Leave` on the old room, then refresh the UI.  Returns the
active room afterwards and the emitted events in order. -/
def handleRoomChange (username : String) (active : Room) (arg : String)
    (joinFails : Bool) : Room × List SwitchEvent :=
  if arg = "" then
    (active, [.logged ⟨"badcmd", "missing room name for command"⟩])
  else
    match joinRoom username arg joinFails with
    | .error e =>
        (active, [.logged ⟨"roomchange", "joining new room " ++ arg⟩,
          .logged ⟨"jumperr", "could not change chat room - " ++ e⟩])
    | .ok newRoom =>
        (newRoom, [.logged ⟨"roomchange", "joining new room " ++ arg⟩,
          .assignedActive newRoom, .sleptSecond, .leaveCalled active,
          .clearedMessages, .setTitle ("ChatRoom-" ++ newRoom.RoomName)])

/-- Claim C4: when a switch to a (non-empty) `newName` is requested
while a room is active: if constructing the new room fails, the old
room stays the active reference untouched and a `jumperr` log entry is
surfaced; if construction succeeds, the new room is published as the
active reference strictly before the old room's `Leave()` is called,
and afterwards the active room's `RoomName` equals `newName`. -/
theorem c4_switch_room (username newName : String) (active : Room)
    (h : newName ≠ "") :
    ((handleRoomChange username active newName true).1 = active ∧
      .logged ⟨"jumperr", "could not change chat room - " ++ "join failed"⟩
        ∈ (handleRoomChange username active newName true).2) ∧
    ((handleRoomChange username active newName false).1.RoomName = newName ∧
      ∃ i j, i < j ∧
        (handleRoomChange username active newName false).2.getD i .sleptSecond
          = .assignedActive (handleRoomChange username active newName false).1 ∧
        (handleRoomChange username active newName false).2.getD j .sleptSecond
          = .leaveCalled active) := by
  refine ⟨⟨?_, ?_⟩, ?_, 1, 3, by norm_num, ?_, ?_⟩
  · simp [handleRoomChange, joinRoom, h]
  · simp [handleRoomChange, joinRoom, h]
  · simp [handleRoomChange, joinRoom, h]
  · simp [handleRoomChange, joinRoom, h]
  · simp [handleRoomChange, joinRoom, h]

theorem c4_switch_room_witness :
    ("games" : String) ≠ "" ∧
    (handleRoomChange "u" ⟨"lobby", "u"⟩ "games" true).1 = ⟨"lobby", "u"⟩ ∧
    (handleRoomChange "u" ⟨"lobby", "u"⟩ "games" false).1.RoomName = "games" :=
  ⟨by decide,
    (c4_switch_room "u" "games" ⟨"lobby", "u"⟩ (by decide)).1.1,
    (c4_switch_room "u" "games" ⟨"lobby", "u"⟩ (by decide)).2.1⟩

/-- Shutdown-relevant flags of one ChatRoom and its two loops. -/
structure RoomLifeState where
  ctxCancelled   : Bool
  subCancelled   : Bool
  topicClosed    : Bool
  leaveReturned  : Bool
  inboundExited  : Bool
  outboundExited : Bool
deriving DecidableEq, Repr

/-- The state before `Leave()` is called, with both loops running. -/
def initRoomLife : RoomLifeState :=
  ⟨false, false, false, false, false, false⟩

/-- Interleaving steps of the caller of `Leave()` and the two loops.
`leaveCall` is the whole body of `Leave` (lines 291-296) run to its
return: `sub.Cancel()`, `topic.Close()` and the deferred `cancelCtx()`
read no loop state and block on nothing, so `Leave` reaches its return
without any synchronization with the loops.  `inboundObserve` is the
inbound loop observing cancellation (its `<-ctx.Done()` arm, or
`sub.Next` failing after the subscription is cancelled) and returning;
`outboundObserve` likewise for the outbound loop's `<-ctx.Done()`. -/
inductive RoomLifeStep where
  | leaveCall
  | inboundObserve
  | outboundObserve
deriving DecidableEq, Repr

def roomLifeStep (s : RoomLifeState) : RoomLifeStep → RoomLifeState
  | .leaveCall =>
      { s with
          subCancelled := true
          topicClosed := true
          ctxCancelled := true
          leaveReturned := true }
  | .inboundObserve =>
      if s.ctxCancelled || s.subCancelled then
        { s with inboundExited := true }
      else s
  | .outboundObserve =>
      if s.ctxCancelled then { s with outboundExited := true } else s

/-- A scheduler's interleaving: the steps executed, in order. -/
def roomLifeRun (s : RoomLifeState) (steps : List RoomLifeStep) : RoomLifeState :=
  steps.foldl roomLifeStep s

/-- Claim C5 fails as stated: the interleaving in which the scheduler
runs only the caller of `Leave()` is reachable, and in it `Leave` has
returned while neither loop has observed the cancellation signal —
`Leave` performs no wait on the loops. -/
theorem c5_counterexample_leave_returns_first :
    (roomLifeRun initRoomLife [.leaveCall]).leaveReturned = true ∧
    (roomLifeRun initRoomLife [.leaveCall]).inboundExited = false ∧
    (roomLifeRun initRoomLife [.leaveCall]).outboundExited = false := by
  decide

/-- Claim C5 (amended): `Leave()` cancels the subscription, closes the
Topic and fires the cancellation token, and returns without waiting for
either loop (the loops' observed-flags are unchanged by it); after it
both loops can observe cancellation and exit; and a second `Leave()`
call repeats the same operations with no further state change (its
calls are idempotent in the model, whose transport `close` is total). -/
theorem c5_leave_no_wait_and_idempotent (s : RoomLifeState) :
    (roomLifeStep s .leaveCall).leaveReturned = true ∧
    (roomLifeStep s .leaveCall).ctxCancelled = true ∧
    (roomLifeStep s .leaveCall).subCancelled = true ∧
    (roomLifeStep s .leaveCall).topicClosed = true ∧
    (roomLifeStep s .leaveCall).inboundExited = s.inboundExited ∧
    (roomLifeStep s .leaveCall).outboundExited = s.outboundExited ∧
    roomLifeStep (roomLifeStep s .leaveCall) .leaveCall = roomLifeStep s .leaveCall ∧
    (roomLifeRun (roomLifeStep s .leaveCall)
      [.inboundObserve, .outboundObserve]).inboundExited = true ∧
    (roomLifeRun (roomLifeStep s .leaveCall)
      [.inboundObserve, .outboundObserve]).outboundExited = true := by
  refine ⟨rfl, rfl, rfl, rfl, rfl, rfl, rfl, ?_, ?_⟩ <;>
    simp [roomLifeRun, roomLifeStep]

/-- Witness for claim C5's amended theorem at the initial state. -/
theorem c5_leave_no_wait_and_idempotent_witness :
    (roomLifeStep initRoomLife .leaveCall).leaveReturned = true ∧
    (roomLifeStep initRoomLife .leaveCall).ctxCancelled = true ∧
    (roomLifeStep initRoomLife .leaveCall).subCancelled = true ∧
    (roomLifeStep initRoomLife .leaveCall).topicClosed = true ∧
    (roomLifeStep initRoomLife .leaveCall).inboundExited = initRoomLife.inboundExited ∧
    (roomLifeStep initRoomLife .leaveCall).outboundExited = initRoomLife.outboundExited ∧
    roomLifeStep (roomLifeStep initRoomLife .leaveCall) .leaveCall
      = roomLifeStep initRoomLife .leaveCall ∧
    (roomLifeRun (roomLifeStep initRoomLife .leaveCall)
      [.inboundObserve, .outboundObserve]).inboundExited = true ∧
    (roomLifeRun (roomLifeStep initRoomLife .leaveCall)
      [.inboundObserve, .outboundObserve]).outboundExited = true :=
  c5_leave_no_wait_and_idempotent initRoomLife

/-- Witness for claim C6 at a concrete self-originated message. -/
theorem c6_self_discard_witness :
    listenStep "alice" emptyFileChunks
        (.fromPeer "alice" (.ok ⟨"hi", "alice", "alice", "", "", 0, 0, none⟩)) =
      ⟨emptyFileChunks, [], .next⟩ :=
  c6_self_discard "alice" emptyFileChunks (.ok ⟨"hi", "alice", "alice", "", "", 0, 0, none⟩)
